import Mathlib

/-!
Shallow embedding of `rlsuite/algos/sarsa.py` (on-policy TD control).

Real numbers of the program are modelled as rationals; the numpy random
stream is modelled as an explicit stream of natural numbers, one draw per
call, where a weighted choice picks an element of the support of the
distribution and a uniform choice over a list picks an index modulo the
list length.  The environment (an external collaborator in the spec) is a
deterministic test double: a start state and a step function
`state -> action -> (next_state, reward, done)`.  The `while not done`
loop is bounded by explicit fuel counting the iterations after the first;
the body always runs at least once, exactly as in the source, where
`done` is initialised to `False` before the loop.
-/

namespace RLSuite

/-- Random source: a stream of natural numbers, one consumed per draw. -/
abbrev Rng := ℕ → ℕ

/-- Head of the random stream (the next raw draw). -/
def rngHead (r : Rng) : ℕ := r 0

/-- Tail of the random stream after one draw. -/
def rngTail (r : Rng) : Rng := fun n => r (n + 1)

/-- Actions `a < A` with positive probability under the distribution `p`:
the support of the row, the set from which `np.random.choice(A, p=row)`
can return. -/
def actionSupport (p : ℕ → ℚ) (A : ℕ) : List ℕ :=
  (List.range A).filter (fun a => decide (0 < p a))

/-- Model of `np.random.choice(num_actions, p=row)`: the raw draw `k`
selects an element of the support of the row. -/
def choiceP (p : ℕ → ℚ) (A : ℕ) (k : ℕ) : ℕ :=
  (actionSupport p A).getD (k % (actionSupport p A).length) 0

/-- Model of `Q[state].max()`: maximum of the row over actions `0..A-1`. -/
def rowMax (q : ℕ → ℚ) (A : ℕ) : ℚ :=
  ((List.range A).map q).foldl max (q 0)

/-- Model of `np.where(Q[state] == Q[state].max())[0]`: indices, in
increasing order, whose value equals the row maximum (exact equality). -/
def bestActions (q : ℕ → ℚ) (A : ℕ) : List ℕ :=
  (List.range A).filter (fun a => decide (q a = rowMax q A))

/-- Model of `np.random.choice(best_actions)`: the raw draw `k` selects
an index modulo the length of the list. -/
def choiceU (l : List ℕ) (k : ℕ) : ℕ :=
  l.getD (k % l.length) 0

/-- The assignment `Q[state, action] += alpha * (target - Q[state, action])`
as a scalar function of the old value. -/
def qUpdate (v : ℚ) (alpha : ℚ) (target : ℚ) : ℚ :=
  v + alpha * (target - v)

/-- The Q-table after `Q[s, a] += alpha * (target - Q[s, a])`. -/
def updateQ (Q : ℕ → ℕ → ℚ) (s a : ℕ) (alpha target : ℚ) : ℕ → ℕ → ℚ :=
  fun s' a' => if s' = s ∧ a' = a then qUpdate (Q s a) alpha target else Q s' a'

/-- Lines 93-99 of the source: recompute the policy row of state `s` from
the current Q-row of `s`.  `k` is the raw draw used by
`np.random.choice(best_actions)`; the greedy action receives
`1 - epsilon + epsilon / A` and every other action `epsilon / A`. -/
def deriveRow (Q : ℕ → ℕ → ℚ) (pi : ℕ → ℕ → ℚ) (s A : ℕ) (eps : ℚ) (k : ℕ) :
    ℕ → ℕ → ℚ :=
  fun s' a =>
    if s' = s then
      if a = choiceU (bestActions (Q s) A) k then 1 - eps + eps / (A : ℚ)
      else eps / (A : ℚ)
    else pi s' a

/-- Mutable state of the episode loop: the two tables, the current state
and action, and the per-episode statistics. -/
structure LoopState where
  Q : ℕ → ℕ → ℚ
  pi : ℕ → ℕ → ℚ
  state : ℕ
  action : ℕ
  episodeLength : ℕ
  episodeReturn : ℚ

/-- Deterministic environment double: `step state action` returns
`(next_state, reward, done)`. -/
abbrev EnvStep := ℕ → ℕ → ℕ × ℚ × Bool

/-- One iteration of the `while not done` body (lines 82-105 of the
source): step the environment, sample `next_action` from `pi[state]`,
compute the SARSA target, update `Q[state, action]`, re-derive the policy
row of `state`, advance state and action, accumulate statistics.  Returns
the new loop state, the `done` flag, and the advanced random stream. -/
def loopBody (A : ℕ) (alpha eps gamma : ℚ) (envStep : EnvStep)
    (ls : LoopState) (r : Rng) : LoopState × Bool × Rng :=
  let next_state := (envStep ls.state ls.action).1
  let reward := (envStep ls.state ls.action).2.1
  let done := (envStep ls.state ls.action).2.2
  let next_action := choiceP (ls.pi ls.state) A (rngHead r)
  let target := reward + gamma * ls.Q next_state next_action
  let Q' := updateQ ls.Q ls.state ls.action alpha target
  let pi' := deriveRow Q' ls.pi ls.state A eps (rngHead (rngTail r))
  ({ Q := Q', pi := pi', state := next_state, action := next_action,
     episodeLength := ls.episodeLength + 1,
     episodeReturn := ls.episodeReturn + reward },
   done, rngTail (rngTail r))

/-- The `while not done` loop.  The body runs at least once (the source
initialises `done = False` before the loop); `fuel` bounds the number of
further iterations, a modelling artifact for environments that never
signal termination.  Also returns, as a ghost trace, the list of states
whose Q-row was updated by the executed iterations, in order. -/
def runLoop (A : ℕ) (alpha eps gamma : ℚ) (envStep : EnvStep)
    (fuel : ℕ) (ls : LoopState) (r : Rng) : LoopState × Rng × List ℕ :=
  match fuel with
  | 0 =>
    let res := loopBody A alpha eps gamma envStep ls r
    (res.1, res.2.2, [ls.state])
  | fuel' + 1 =>
    let res := loopBody A alpha eps gamma envStep ls r
    if res.2.1 then (res.1, res.2.2, [ls.state])
    else
      let rest := runLoop A alpha eps gamma envStep fuel' res.1 res.2.2
      (rest.1, rest.2.1, ls.state :: rest.2.2)

/-- One episode (lines 76-105): reset the environment, sample the initial
action from `pi[state]`, then run the loop. -/
def runEpisode (A : ℕ) (alpha eps gamma : ℚ) (envReset : ℕ)
    (envStep : EnvStep) (fuel : ℕ) (Q pi : ℕ → ℕ → ℚ) (r : Rng) :
    LoopState × Rng × List ℕ :=
  runLoop A alpha eps gamma envStep fuel
    { Q := Q, pi := pi, state := envReset,
      action := choiceP (pi envReset) A (rngHead r),
      episodeLength := 0, episodeReturn := 0 }
    (rngTail r)

/-- Result of a full run: the final tables, the advanced random stream,
the per-episode `(episode_length, episode_return)` scalars reported to the
metrics sink, and the ghost trace of updated states. -/
structure RunResult where
  Q : ℕ → ℕ → ℚ
  pi : ℕ → ℕ → ℚ
  rng : Rng
  metrics : List (ℕ × ℚ)
  visited : List ℕ

/-- The `for i in range(num_episodes)` loop: run `n` episodes in
sequence; only the two tables and the random stream carry over. -/
def runEpisodes (A : ℕ) (alpha eps gamma : ℚ) (envReset : ℕ)
    (envStep : EnvStep) (fuel : ℕ) (n : ℕ) (Q pi : ℕ → ℕ → ℚ) (r : Rng) :
    RunResult :=
  match n with
  | 0 => { Q := Q, pi := pi, rng := r, metrics := [], visited := [] }
  | n' + 1 =>
    let ep := runEpisode A alpha eps gamma envReset envStep fuel Q pi r
    let rest := runEpisodes A alpha eps gamma envReset envStep fuel n'
      ep.1.Q ep.1.pi ep.2.1
    { rest with
      metrics := (ep.1.episodeLength, ep.1.episodeReturn) :: rest.metrics,
      visited := ep.2.2 ++ rest.visited }

/-- The four `assert` statements at the top of `sarsa` (lines 35-38),
conjoined in source order: `alpha > 0 and epsilon <= 1`,
`epsilon >= 0 and epsilon <= 1`, `gamma >= 0 and gamma <= 1`,
`num_episodes > 0`. -/
def validParams (alpha eps gamma : ℚ) (numEpisodes : ℤ) : Bool :=
  (decide (0 < alpha) && decide (eps ≤ 1)) &&
  (decide (0 ≤ eps) && decide (eps ≤ 1)) &&
  (decide (0 ≤ gamma) && decide (gamma ≤ 1)) &&
  decide (0 < numEpisodes)

/-- The `sarsa` entry point: validate the parameters; on failure return
`none` (the `AssertionError`, raised before the environment is
constructed or touched and before any table exists); on success
initialise `pi` uniform at `1 / A`, `Q` to zero, and run the episodes. -/
def sarsa (alpha eps gamma : ℚ) (numEpisodes : ℤ) (A : ℕ) (envReset : ℕ)
    (envStep : EnvStep) (fuel : ℕ) (r : Rng) : Option RunResult :=
  if validParams alpha eps gamma numEpisodes then
    some (runEpisodes A alpha eps gamma envReset envStep fuel
      numEpisodes.toNat (fun _ _ => 0) (fun _ _ => 1 / (A : ℚ)) r)
  else none

/-- Policy-table invariant of the spec: every row sums to 1 and every
entry of the first `A` columns lies in `[eps/A, 1 - eps + eps/A]`. -/
def rowsOK (pi : ℕ → ℕ → ℚ) (A : ℕ) (eps : ℚ) : Prop :=
  ∀ s, (∑ a ∈ Finset.range A, pi s a) = 1 ∧
    ∀ a, a < A → eps / (A : ℚ) ≤ pi s a ∧ pi s a ≤ 1 - eps + eps / (A : ℚ)

/-- The deterministic 2-state, 2-action fixture of the spec's end-to-end
scenario: action 0 from state 0 gives reward 1 and moves to terminal
state 1; any other transition gives reward 0; the fixture terminates
after one transition. -/
def fixtureStep : EnvStep := fun s a =>
  if s = 0 ∧ a = 0 then (1, 1, true)
  else if s = 0 then (0, 0, true)
  else (s, 0, true)

/-! Helper lemmas about the list maximum and the tied argmax set. -/

theorem le_foldl_max (l : List ℚ) (m : ℚ) : m ≤ l.foldl max m := by
  induction l generalizing m with
  | nil => simp
  | cons x xs ih => exact le_trans (le_max_left m x) (ih (max m x))

theorem mem_le_foldl_max (l : List ℚ) (m x : ℚ) (hx : x ∈ l) :
    x ≤ l.foldl max m := by
  induction l generalizing m with
  | nil => cases hx
  | cons y ys ih =>
    rcases List.mem_cons.mp hx with h | h
    · subst h
      exact le_trans (le_max_right m x) (le_foldl_max ys (max m x))
    · exact ih _ h

theorem foldl_max_mem (l : List ℚ) (m : ℚ) :
    l.foldl max m = m ∨ l.foldl max m ∈ l := by
  induction l generalizing m with
  | nil => exact Or.inl rfl
  | cons x xs ih =>
    rcases ih (max m x) with h | h
    · rcases max_choice m x with hm | hm
      · exact Or.inl (by rw [List.foldl_cons, h, hm])
      · refine Or.inr ?_
        rw [List.foldl_cons, h, hm]
        exact List.mem_cons_self x xs
    · exact Or.inr (List.mem_cons_of_mem x h)

theorem rowMax_attained (q : ℕ → ℚ) (A : ℕ) (hA : 0 < A) :
    ∃ a, a < A ∧ q a = rowMax q A := by
  rcases foldl_max_mem ((List.range A).map q) (q 0) with h | h
  · exact ⟨0, hA, h.symm⟩
  · rcases List.mem_map.mp h with ⟨a, ha, hqa⟩
    exact ⟨a, List.mem_range.mp ha, hqa⟩

theorem mem_bestActions (q : ℕ → ℚ) (A a : ℕ) :
    a ∈ bestActions q A ↔ a < A ∧ q a = rowMax q A := by
  simp [bestActions, List.mem_filter, List.mem_range]

theorem bestActions_ne_nil (q : ℕ → ℚ) (A : ℕ) (hA : 0 < A) :
    bestActions q A ≠ [] := by
  obtain ⟨a, haA, hqa⟩ := rowMax_attained q A hA
  intro h
  have : a ∈ bestActions q A := (mem_bestActions q A a).mpr ⟨haA, hqa⟩
  rw [h] at this
  cases this

theorem choiceU_mem (l : List ℕ) (k : ℕ) (h : l ≠ []) : choiceU l k ∈ l := by
  have hlen : 0 < l.length := List.length_pos.mpr h
  have hk : k % l.length < l.length := Nat.mod_lt _ hlen
  rw [choiceU, List.getD_eq_getElem l 0 hk]
  exact List.getElem_mem hk

theorem choiceU_surj (l : List ℕ) (a : ℕ) (ha : a ∈ l) :
    ∃ k, choiceU l k = a := by
  refine ⟨l.indexOf a, ?_⟩
  have hlt : l.indexOf a < l.length := List.indexOf_lt_length.mpr ha
  rw [choiceU, Nat.mod_eq_of_lt hlt, List.getD_eq_getElem l 0 hlt]
  exact List.getElem_indexOf hlt

/-! Helper lemmas about the epsilon-greedy row values. -/

theorem sum_ite_row (A : ℕ) (hA : 0 < A) (eps : ℚ) (b : ℕ) (hb : b < A) :
    (∑ a ∈ Finset.range A,
      (if a = b then 1 - eps + eps / (A : ℚ) else eps / (A : ℚ))) = 1 := by
  have hA0 : (A : ℚ) ≠ 0 := Nat.cast_ne_zero.mpr hA.ne'
  have hsplit : ∀ a : ℕ,
      (if a = b then 1 - eps + eps / (A : ℚ) else eps / (A : ℚ))
        = eps / (A : ℚ) + (if a = b then 1 - eps else 0) := by
    intro a
    by_cases h : a = b <;> simp [h] <;> ring
  rw [Finset.sum_congr rfl (fun a _ => hsplit a), Finset.sum_add_distrib,
    Finset.sum_const, Finset.card_range,
    Finset.sum_ite_eq' (Finset.range A) b (fun _ => 1 - eps)]
  simp only [Finset.mem_range.mpr hb, if_true, nsmul_eq_mul]
  field_simp

theorem uniform_entry_bounds (A : ℕ) (hA : 0 < A) (eps : ℚ)
    (h0 : 0 ≤ eps) (h1 : eps ≤ 1) :
    eps / (A : ℚ) ≤ 1 / (A : ℚ) ∧ 1 / (A : ℚ) ≤ 1 - eps + eps / (A : ℚ) := by
  have hApos : (0 : ℚ) < A := by exact_mod_cast hA
  have hA1 : (1 : ℚ) ≤ A := by exact_mod_cast hA
  constructor
  · gcongr
  · have key : 1 - eps + eps / (A : ℚ) - 1 / (A : ℚ)
        = (1 - eps) * ((A : ℚ) - 1) / A := by
      field_simp
      ring
    have hnn : 0 ≤ (1 - eps) * ((A : ℚ) - 1) / A :=
      div_nonneg (mul_nonneg (by linarith) (by linarith)) hApos.le
    linarith

theorem sum_uniform_row (A : ℕ) (hA : 0 < A) :
    (∑ _a ∈ Finset.range A, 1 / (A : ℚ)) = 1 := by
  have hA0 : (A : ℚ) ≠ 0 := Nat.cast_ne_zero.mpr hA.ne'
  rw [Finset.sum_const, Finset.card_range, nsmul_eq_mul]
  field_simp

theorem rowsOK_uniform (A : ℕ) (hA : 0 < A) (eps : ℚ)
    (h0 : 0 ≤ eps) (h1 : eps ≤ 1) :
    rowsOK (fun _ _ => 1 / (A : ℚ)) A eps := by
  intro s
  refine ⟨sum_uniform_row A hA, fun a _ => ?_⟩
  exact uniform_entry_bounds A hA eps h0 h1

theorem deriveRow_self (Q : ℕ → ℕ → ℚ) (pi : ℕ → ℕ → ℚ) (s A : ℕ)
    (eps : ℚ) (k : ℕ) (a : ℕ) :
    deriveRow Q pi s A eps k s a
      = if a = choiceU (bestActions (Q s) A) k then 1 - eps + eps / (A : ℚ)
        else eps / (A : ℚ) := by
  simp [deriveRow]

theorem deriveRow_other (Q : ℕ → ℕ → ℚ) (pi : ℕ → ℕ → ℚ) (s A : ℕ)
    (eps : ℚ) (k : ℕ) (s' a : ℕ) (hs : s' ≠ s) :
    deriveRow Q pi s A eps k s' a = pi s' a := by
  simp [deriveRow, hs]

theorem deriveRow_rowsOK (Q : ℕ → ℕ → ℚ) (pi : ℕ → ℕ → ℚ) (s A : ℕ)
    (eps : ℚ) (k : ℕ) (hA : 0 < A) (h0 : 0 ≤ eps) (h1 : eps ≤ 1)
    (hpi : rowsOK pi A eps) :
    rowsOK (deriveRow Q pi s A eps k) A eps := by
  intro s'
  by_cases hs : s' = s
  · subst hs
    have hb : choiceU (bestActions (Q s') A) k ∈ bestActions (Q s') A :=
      choiceU_mem _ k (bestActions_ne_nil (Q s') A hA)
    have hbA : choiceU (bestActions (Q s') A) k < A :=
      ((mem_bestActions (Q s') A _).mp hb).1
    constructor
    · rw [Finset.sum_congr rfl (fun a _ => deriveRow_self Q pi s' A eps k a)]
      exact sum_ite_row A hA eps _ hbA
    · intro a _
      rw [deriveRow_self]
      by_cases h : a = choiceU (bestActions (Q s') A) k
      · rw [if_pos h]
        exact ⟨by linarith, le_refl _⟩
      · rw [if_neg h]
        exact ⟨le_refl _, by linarith⟩
  · refine ⟨?_, fun a ha => ?_⟩
    · rw [Finset.sum_congr rfl (fun a _ => deriveRow_other Q pi s A eps k s' a hs)]
      exact (hpi s').1
    · rw [deriveRow_other Q pi s A eps k s' a hs]
      exact (hpi s').2 a ha

/-! Helper lemmas about one iteration of the episode loop. -/

theorem loopBody_Q_self (A : ℕ) (alpha eps gamma : ℚ) (envStep : EnvStep)
    (ls : LoopState) (r : Rng) :
    ((loopBody A alpha eps gamma envStep ls r).1).Q ls.state ls.action
      = qUpdate (ls.Q ls.state ls.action) alpha
          ((envStep ls.state ls.action).2.1
            + gamma * ls.Q (envStep ls.state ls.action).1
                (choiceP (ls.pi ls.state) A (rngHead r))) := by
  simp [loopBody, updateQ]

theorem loopBody_Q_frame (A : ℕ) (alpha eps gamma : ℚ) (envStep : EnvStep)
    (ls : LoopState) (r : Rng) (s a : ℕ)
    (h : ¬(s = ls.state ∧ a = ls.action)) :
    ((loopBody A alpha eps gamma envStep ls r).1).Q s a = ls.Q s a := by
  simp only [loopBody, updateQ]
  rw [if_neg h]

theorem loopBody_pi_frame (A : ℕ) (alpha eps gamma : ℚ) (envStep : EnvStep)
    (ls : LoopState) (r : Rng) (s a : ℕ) (h : s ≠ ls.state) :
    ((loopBody A alpha eps gamma envStep ls r).1).pi s a = ls.pi s a := by
  simp only [loopBody]
  exact deriveRow_other _ _ _ _ _ _ s a h

theorem loopBody_action (A : ℕ) (alpha eps gamma : ℚ) (envStep : EnvStep)
    (ls : LoopState) (r : Rng) :
    ((loopBody A alpha eps gamma envStep ls r).1).action
      = choiceP (ls.pi ls.state) A (rngHead r) := by
  simp [loopBody]

theorem loopBody_length (A : ℕ) (alpha eps gamma : ℚ) (envStep : EnvStep)
    (ls : LoopState) (r : Rng) :
    ((loopBody A alpha eps gamma envStep ls r).1).episodeLength
      = ls.episodeLength + 1 := by
  simp [loopBody]

theorem loopBody_rowsOK (A : ℕ) (alpha eps gamma : ℚ) (envStep : EnvStep)
    (ls : LoopState) (r : Rng) (hA : 0 < A) (h0 : 0 ≤ eps) (h1 : eps ≤ 1)
    (hpi : rowsOK ls.pi A eps) :
    rowsOK ((loopBody A alpha eps gamma envStep ls r).1).pi A eps := by
  simp only [loopBody]
  exact deriveRow_rowsOK _ _ _ _ _ _ hA h0 h1 hpi

/-! Unfolding equations and invariants of the while loop. -/

theorem runLoop_zero (A : ℕ) (alpha eps gamma : ℚ) (envStep : EnvStep)
    (ls : LoopState) (r : Rng) :
    runLoop A alpha eps gamma envStep 0 ls r
      = ((loopBody A alpha eps gamma envStep ls r).1,
         (loopBody A alpha eps gamma envStep ls r).2.2, [ls.state]) := rfl

theorem runLoop_succ (A : ℕ) (alpha eps gamma : ℚ) (envStep : EnvStep)
    (fuel : ℕ) (ls : LoopState) (r : Rng) :
    runLoop A alpha eps gamma envStep (fuel + 1) ls r
      = if (loopBody A alpha eps gamma envStep ls r).2.1 then
          ((loopBody A alpha eps gamma envStep ls r).1,
           (loopBody A alpha eps gamma envStep ls r).2.2, [ls.state])
        else
          ((runLoop A alpha eps gamma envStep fuel
              (loopBody A alpha eps gamma envStep ls r).1
              (loopBody A alpha eps gamma envStep ls r).2.2).1,
           (runLoop A alpha eps gamma envStep fuel
              (loopBody A alpha eps gamma envStep ls r).1
              (loopBody A alpha eps gamma envStep ls r).2.2).2.1,
           ls.state :: (runLoop A alpha eps gamma envStep fuel
              (loopBody A alpha eps gamma envStep ls r).1
              (loopBody A alpha eps gamma envStep ls r).2.2).2.2) := rfl

theorem runLoop_untouched (A : ℕ) (alpha eps gamma : ℚ) (envStep : EnvStep)
    (fuel : ℕ) (ls : LoopState) (r : Rng) (s : ℕ)
    (hs : s ∉ (runLoop A alpha eps gamma envStep fuel ls r).2.2) (a : ℕ) :
    (runLoop A alpha eps gamma envStep fuel ls r).1.Q s a = ls.Q s a ∧
    (runLoop A alpha eps gamma envStep fuel ls r).1.pi s a = ls.pi s a := by
  induction fuel generalizing ls r with
  | zero =>
    rw [runLoop_zero] at hs ⊢
    have hne : s ≠ ls.state := by simpa using hs
    exact ⟨loopBody_Q_frame _ _ _ _ _ _ _ s a (fun hc => hne hc.1),
           loopBody_pi_frame _ _ _ _ _ _ _ s a hne⟩
  | succ fuel' ih =>
    rw [runLoop_succ] at hs ⊢
    by_cases hd : (loopBody A alpha eps gamma envStep ls r).2.1 = true
    · rw [if_pos hd] at hs ⊢
      have hne : s ≠ ls.state := by simpa using hs
      exact ⟨loopBody_Q_frame _ _ _ _ _ _ _ s a (fun hc => hne hc.1),
             loopBody_pi_frame _ _ _ _ _ _ _ s a hne⟩
    · rw [if_neg hd] at hs ⊢
      simp only [List.mem_cons, not_or] at hs
      obtain ⟨hne, hrest⟩ := hs
      obtain ⟨hQ, hpi⟩ := ih _ _ hrest
      refine ⟨?_, ?_⟩
      · rw [hQ]
        exact loopBody_Q_frame _ _ _ _ _ _ _ s a (fun hc => hne hc.1)
      · rw [hpi]
        exact loopBody_pi_frame _ _ _ _ _ _ _ s a hne

theorem runLoop_rowsOK (A : ℕ) (alpha eps gamma : ℚ) (envStep : EnvStep)
    (fuel : ℕ) (ls : LoopState) (r : Rng)
    (hA : 0 < A) (h0 : 0 ≤ eps) (h1 : eps ≤ 1) (hpi : rowsOK ls.pi A eps) :
    rowsOK (runLoop A alpha eps gamma envStep fuel ls r).1.pi A eps := by
  induction fuel generalizing ls r with
  | zero =>
    rw [runLoop_zero]
    exact loopBody_rowsOK A alpha eps gamma envStep ls r hA h0 h1 hpi
  | succ fuel' ih =>
    rw [runLoop_succ]
    by_cases hd : (loopBody A alpha eps gamma envStep ls r).2.1 = true
    · rw [if_pos hd]
      exact loopBody_rowsOK A alpha eps gamma envStep ls r hA h0 h1 hpi
    · rw [if_neg hd]
      exact ih _ _ (loopBody_rowsOK A alpha eps gamma envStep ls r hA h0 h1 hpi)

theorem runLoop_length (A : ℕ) (alpha eps gamma : ℚ) (envStep : EnvStep)
    (fuel : ℕ) (ls : LoopState) (r : Rng) :
    (runLoop A alpha eps gamma envStep fuel ls r).1.episodeLength
      = ls.episodeLength
        + (runLoop A alpha eps gamma envStep fuel ls r).2.2.length := by
  induction fuel generalizing ls r with
  | zero =>
    rw [runLoop_zero]
    simp [loopBody_length]
  | succ fuel' ih =>
    rw [runLoop_succ]
    by_cases hd : (loopBody A alpha eps gamma envStep ls r).2.1 = true
    · rw [if_pos hd]
      simp [loopBody_length]
    · rw [if_neg hd]
      simp only [List.length_cons]
      rw [ih _ _, loopBody_length]
      omega

theorem runLoop_visited_ne_nil (A : ℕ) (alpha eps gamma : ℚ)
    (envStep : EnvStep) (fuel : ℕ) (ls : LoopState) (r : Rng) :
    (runLoop A alpha eps gamma envStep fuel ls r).2.2 ≠ [] := by
  cases fuel with
  | zero =>
    rw [runLoop_zero]
    simp
  | succ fuel' =>
    rw [runLoop_succ]
    by_cases hd : (loopBody A alpha eps gamma envStep ls r).2.1 = true
    · rw [if_pos hd]
      simp
    · rw [if_neg hd]
      simp

/-! Unfolding equations and invariants of the episode loop. -/

theorem runEpisode_def (A : ℕ) (alpha eps gamma : ℚ) (envReset : ℕ)
    (envStep : EnvStep) (fuel : ℕ) (Q pi : ℕ → ℕ → ℚ) (r : Rng) :
    runEpisode A alpha eps gamma envReset envStep fuel Q pi r
      = runLoop A alpha eps gamma envStep fuel
          { Q := Q, pi := pi, state := envReset,
            action := choiceP (pi envReset) A (rngHead r),
            episodeLength := 0, episodeReturn := 0 } (rngTail r) := rfl

theorem runEpisodes_zero (A : ℕ) (alpha eps gamma : ℚ) (envReset : ℕ)
    (envStep : EnvStep) (fuel : ℕ) (Q pi : ℕ → ℕ → ℚ) (r : Rng) :
    runEpisodes A alpha eps gamma envReset envStep fuel 0 Q pi r
      = { Q := Q, pi := pi, rng := r, metrics := [], visited := [] } := rfl

theorem runEpisodes_succ (A : ℕ) (alpha eps gamma : ℚ) (envReset : ℕ)
    (envStep : EnvStep) (fuel n : ℕ) (Q pi : ℕ → ℕ → ℚ) (r : Rng) :
    runEpisodes A alpha eps gamma envReset envStep fuel (n + 1) Q pi r
      = { Q := (runEpisodes A alpha eps gamma envReset envStep fuel n
            (runEpisode A alpha eps gamma envReset envStep fuel Q pi r).1.Q
            (runEpisode A alpha eps gamma envReset envStep fuel Q pi r).1.pi
            (runEpisode A alpha eps gamma envReset envStep fuel Q pi r).2.1).Q,
          pi := (runEpisodes A alpha eps gamma envReset envStep fuel n
            (runEpisode A alpha eps gamma envReset envStep fuel Q pi r).1.Q
            (runEpisode A alpha eps gamma envReset envStep fuel Q pi r).1.pi
            (runEpisode A alpha eps gamma envReset envStep fuel Q pi r).2.1).pi,
          rng := (runEpisodes A alpha eps gamma envReset envStep fuel n
            (runEpisode A alpha eps gamma envReset envStep fuel Q pi r).1.Q
            (runEpisode A alpha eps gamma envReset envStep fuel Q pi r).1.pi
            (runEpisode A alpha eps gamma envReset envStep fuel Q pi r).2.1).rng,
          metrics :=
            ((runEpisode A alpha eps gamma envReset envStep fuel Q pi r).1.episodeLength,
             (runEpisode A alpha eps gamma envReset envStep fuel Q pi r).1.episodeReturn)
            :: (runEpisodes A alpha eps gamma envReset envStep fuel n
                 (runEpisode A alpha eps gamma envReset envStep fuel Q pi r).1.Q
                 (runEpisode A alpha eps gamma envReset envStep fuel Q pi r).1.pi
                 (runEpisode A alpha eps gamma envReset envStep fuel Q pi r).2.1).metrics,
          visited :=
            (runEpisode A alpha eps gamma envReset envStep fuel Q pi r).2.2
            ++ (runEpisodes A alpha eps gamma envReset envStep fuel n
                 (runEpisode A alpha eps gamma envReset envStep fuel Q pi r).1.Q
                 (runEpisode A alpha eps gamma envReset envStep fuel Q pi r).1.pi
                 (runEpisode A alpha eps gamma envReset envStep fuel Q pi r).2.1).visited } := rfl

theorem runEpisodes_untouched (A : ℕ) (alpha eps gamma : ℚ) (envReset : ℕ)
    (envStep : EnvStep) (fuel n : ℕ) (Q pi : ℕ → ℕ → ℚ) (r : Rng) (s : ℕ)
    (hs : s ∉ (runEpisodes A alpha eps gamma envReset envStep fuel n Q pi r).visited)
    (a : ℕ) :
    (runEpisodes A alpha eps gamma envReset envStep fuel n Q pi r).Q s a = Q s a ∧
    (runEpisodes A alpha eps gamma envReset envStep fuel n Q pi r).pi s a = pi s a := by
  induction n generalizing Q pi r with
  | zero =>
    rw [runEpisodes_zero]
    exact ⟨rfl, rfl⟩
  | succ n' ih =>
    rw [runEpisodes_succ] at hs
    simp only [List.mem_append, not_or] at hs
    obtain ⟨hep, hrest⟩ := hs
    obtain ⟨hQ2, hpi2⟩ := ih _ _ _ hrest
    rw [runEpisode_def] at hep
    obtain ⟨hQ1, hpi1⟩ := runLoop_untouched A alpha eps gamma envStep fuel _ _ s hep a
    rw [← runEpisode_def] at hQ1 hpi1
    dsimp only at hQ1 hpi1
    rw [runEpisodes_succ]
    dsimp only
    exact ⟨by rw [hQ2, hQ1], by rw [hpi2, hpi1]⟩

theorem runEpisodes_rowsOK (A : ℕ) (alpha eps gamma : ℚ) (envReset : ℕ)
    (envStep : EnvStep) (fuel n : ℕ) (Q pi : ℕ → ℕ → ℚ) (r : Rng)
    (hA : 0 < A) (h0 : 0 ≤ eps) (h1 : eps ≤ 1) (hpi : rowsOK pi A eps) :
    rowsOK (runEpisodes A alpha eps gamma envReset envStep fuel n Q pi r).pi A eps := by
  induction n generalizing Q pi r with
  | zero =>
    rw [runEpisodes_zero]
    exact hpi
  | succ n' ih =>
    rw [runEpisodes_succ]
    refine ih _ _ _ ?_
    rw [runEpisode_def]
    exact runLoop_rowsOK A alpha eps gamma envStep fuel _ _ hA h0 h1 hpi

theorem runEpisodes_metrics_pos (A : ℕ) (alpha eps gamma : ℚ) (envReset : ℕ)
    (envStep : EnvStep) (fuel n : ℕ) (Q pi : ℕ → ℕ → ℚ) (r : Rng) :
    ∀ m ∈ (runEpisodes A alpha eps gamma envReset envStep fuel n Q pi r).metrics,
      1 ≤ m.1 := by
  induction n generalizing Q pi r with
  | zero =>
    rw [runEpisodes_zero]
    intro m hm
    cases hm
  | succ n' ih =>
    rw [runEpisodes_succ]
    intro m hm
    rcases List.mem_cons.mp hm with h | h
    · subst h
      have hlen := runLoop_length A alpha eps gamma envStep fuel
        { Q := Q, pi := pi, state := envReset,
          action := choiceP (pi envReset) A (rngHead r),
          episodeLength := 0, episodeReturn := 0 } (rngTail r)
      have hne := runLoop_visited_ne_nil A alpha eps gamma envStep fuel
        { Q := Q, pi := pi, state := envReset,
          action := choiceP (pi envReset) A (rngHead r),
          episodeLength := 0, episodeReturn := 0 } (rngTail r)
      have hpos := List.length_pos.mpr hne
      rw [runEpisode_def]
      simp only [hlen]
      omega
    · exact ih _ _ _ m h

/-! Concrete inputs used by the witnesses. -/

/-- Concrete loop state for witnesses: zero Q-table, uniform two-action
policy, at state 0 with action 0. -/
def witnessLS : LoopState :=
  { Q := fun _ _ => 0, pi := fun _ _ => 1 / 2, state := 0, action := 0,
    episodeLength := 0, episodeReturn := 0 }

/-- Concrete random stream for witnesses: always draws 0. -/
def witnessRng : Rng := fun _ => 0

/-- Concrete policy table agreeing with `witnessLS.pi` on row 0 and
differing everywhere else. -/
def witnessPi2 : ℕ → ℕ → ℚ := fun s _ => if s = 0 then 1 / 2 else 0

/-- Concrete Q-table with a forced tie between actions 0 and 1. -/
def tieQ : ℕ → ℕ → ℚ := fun _ a => if a = 0 ∨ a = 1 then 1 else 0

/-! The claims. -/

/-- C1: one iteration of the training-loop body performs exactly the
SARSA update: with `target = reward + gamma * Q[next_state, next_action]`
(where `next_action` is the action the iteration actually selects), the
new `Q[state, action]` equals the old value plus
`alpha * (target - old value)`, and no other Q entry changes. -/
theorem c1_sarsa_update (A : ℕ) (alpha eps gamma : ℚ) (envStep : EnvStep)
    (ls : LoopState) (r : Rng) :
    ((loopBody A alpha eps gamma envStep ls r).1).Q ls.state ls.action
      = ls.Q ls.state ls.action
        + alpha * (((envStep ls.state ls.action).2.1
            + gamma * ls.Q (envStep ls.state ls.action).1
                ((loopBody A alpha eps gamma envStep ls r).1).action)
          - ls.Q ls.state ls.action) ∧
    ∀ s a, ¬(s = ls.state ∧ a = ls.action) →
      ((loopBody A alpha eps gamma envStep ls r).1).Q s a = ls.Q s a := by
  constructor
  · rw [loopBody_action, loopBody_Q_self]
    rfl
  · exact fun s a h => loopBody_Q_frame A alpha eps gamma envStep ls r s a h

/-- Witness for C1 at a concrete input: the entry Q[1,0] differs in index
from (state, action) = (0, 0) and is unchanged by the iteration. -/
theorem c1_sarsa_update_witness :
    ¬((1 : ℕ) = witnessLS.state ∧ (0 : ℕ) = witnessLS.action) ∧
    ((loopBody 2 (1/2) 0 1 fixtureStep witnessLS witnessRng).1).Q 1 0
      = witnessLS.Q 1 0 :=
  ⟨by decide,
   (c1_sarsa_update 2 (1/2) 0 1 fixtureStep witnessLS witnessRng).2 1 0
     (by decide)⟩

/-- C2: in every loop-body iteration, `next_action` is sampled from the
policy row of the state being left: the selected action lies in the
support of `pi[state]`, and replacing the policy table by any table that
agrees on row `state` (in particular one differing at row `next_state`)
leaves the selected action unchanged. -/
theorem c2_next_action_from_current_row (A : ℕ) (alpha eps gamma : ℚ)
    (envStep : EnvStep) (ls : LoopState) (r : Rng) (pi2 : ℕ → ℕ → ℚ)
    (hrow : ∀ a, pi2 ls.state a = ls.pi ls.state a)
    (hsupp : actionSupport (ls.pi ls.state) A ≠ []) :
    ((loopBody A alpha eps gamma envStep ls r).1).action
        ∈ actionSupport (ls.pi ls.state) A ∧
    ((loopBody A alpha eps gamma envStep { ls with pi := pi2 } r).1).action
      = ((loopBody A alpha eps gamma envStep ls r).1).action := by
  have hfun : pi2 ls.state = ls.pi ls.state := funext hrow
  constructor
  · rw [loopBody_action]
    exact choiceU_mem _ _ hsupp
  · rw [loopBody_action, loopBody_action]
    dsimp only
    rw [hfun]

/-- Witness for C2 at a concrete input: `witnessPi2` agrees with the
policy of `witnessLS` on row 0 and the support of that row is nonempty. -/
theorem c2_next_action_from_current_row_witness :
    (∀ a, witnessPi2 witnessLS.state a = witnessLS.pi witnessLS.state a) ∧
    actionSupport (witnessLS.pi witnessLS.state) 2 ≠ [] ∧
    (((loopBody 2 (1/2) 0 1 fixtureStep witnessLS witnessRng).1).action
        ∈ actionSupport (witnessLS.pi witnessLS.state) 2 ∧
     ((loopBody 2 (1/2) 0 1 fixtureStep { witnessLS with pi := witnessPi2 }
        witnessRng).1).action
      = ((loopBody 2 (1/2) 0 1 fixtureStep witnessLS witnessRng).1).action) :=
  ⟨fun _ => rfl, by with_unfolding_all decide,
   c2_next_action_from_current_row 2 (1/2) 0 1 fixtureStep witnessLS
     witnessRng witnessPi2 (fun _ => rfl) (by with_unfolding_all decide)⟩

/-- C3: deriving a policy row forms the set of actions tying for the row
maximum under exact equality; for every outcome of the random source the
chosen greedy action is a member of that set, and every member is chosen
for some outcome; the greedy action receives probability
`1 - eps + eps/A` and every other action `eps/A`. -/
theorem c3_derive_greedy_row (Q pi : ℕ → ℕ → ℚ) (s A : ℕ) (eps : ℚ)
    (k : ℕ) (hA : 0 < A) (h0 : 0 ≤ eps) (h1 : eps ≤ 1) :
    (∀ a, a ∈ bestActions (Q s) A ↔ a < A ∧ Q s a = rowMax (Q s) A) ∧
    choiceU (bestActions (Q s) A) k ∈ bestActions (Q s) A ∧
    (∀ b ∈ bestActions (Q s) A, ∃ k2, choiceU (bestActions (Q s) A) k2 = b) ∧
    deriveRow Q pi s A eps k s (choiceU (bestActions (Q s) A) k)
      = 1 - eps + eps / (A : ℚ) ∧
    ∀ a, a ≠ choiceU (bestActions (Q s) A) k →
      deriveRow Q pi s A eps k s a = eps / (A : ℚ) := by
  refine ⟨fun a => mem_bestActions (Q s) A a,
    choiceU_mem _ k (bestActions_ne_nil (Q s) A hA),
    fun b hb => choiceU_surj _ b hb, ?_, ?_⟩
  · rw [deriveRow_self, if_pos rfl]
  · intro a ha
    rw [deriveRow_self, if_neg ha]

/-- Witness for C3 at a concrete input: a row with a forced tie between
actions 0 and 1 out of three actions, epsilon one half, draw 1. -/
theorem c3_derive_greedy_row_witness :
    0 < 3 ∧ (0 : ℚ) ≤ 1/2 ∧ (1/2 : ℚ) ≤ 1 ∧
    ((∀ a, a ∈ bestActions (tieQ 0) 3 ↔ a < 3 ∧ tieQ 0 a = rowMax (tieQ 0) 3) ∧
     choiceU (bestActions (tieQ 0) 3) 1 ∈ bestActions (tieQ 0) 3 ∧
     (∀ b ∈ bestActions (tieQ 0) 3, ∃ k2, choiceU (bestActions (tieQ 0) 3) k2 = b) ∧
     deriveRow tieQ witnessLS.pi 0 3 (1/2) 1 0
        (choiceU (bestActions (tieQ 0) 3) 1)
       = 1 - 1/2 + (1/2) / (3 : ℚ) ∧
     ∀ a, a ≠ choiceU (bestActions (tieQ 0) 3) 1 →
       deriveRow tieQ witnessLS.pi 0 3 (1/2) 1 0 a = (1/2) / (3 : ℚ)) :=
  ⟨by decide, by with_unfolding_all decide, by with_unfolding_all decide,
   c3_derive_greedy_row tieQ witnessLS.pi 0 3 (1/2) 1 (by decide)
     (by with_unfolding_all decide) (by with_unfolding_all decide)⟩

/-- C4: the policy-table invariant holds at every point of a run: the
initial uniform table satisfies it, every loop-body iteration preserves
it, and it holds of the final table of every full run; moreover rows of
states whose Q-row was never updated still hold the initial uniform value
`1/A` per entry (and their Q-row is still zero). -/
theorem c4_policy_invariant (A : ℕ) (alpha eps gamma : ℚ) (hA : 0 < A)
    (h0 : 0 ≤ eps) (h1 : eps ≤ 1) :
    rowsOK (fun _ _ => 1 / (A : ℚ)) A eps ∧
    (∀ envStep ls r, rowsOK ls.pi A eps →
      rowsOK ((loopBody A alpha eps gamma envStep ls r).1).pi A eps) ∧
    ∀ envReset envStep fuel n r,
      rowsOK (runEpisodes A alpha eps gamma envReset envStep fuel n
        (fun _ _ => 0) (fun _ _ => 1 / (A : ℚ)) r).pi A eps ∧
      ∀ s, s ∉ (runEpisodes A alpha eps gamma envReset envStep fuel n
            (fun _ _ => 0) (fun _ _ => 1 / (A : ℚ)) r).visited →
        ∀ a, (runEpisodes A alpha eps gamma envReset envStep fuel n
            (fun _ _ => 0) (fun _ _ => 1 / (A : ℚ)) r).pi s a = 1 / (A : ℚ) ∧
          (runEpisodes A alpha eps gamma envReset envStep fuel n
            (fun _ _ => 0) (fun _ _ => 1 / (A : ℚ)) r).Q s a = 0 := by
  refine ⟨rowsOK_uniform A hA eps h0 h1,
    fun envStep ls r hpi =>
      loopBody_rowsOK A alpha eps gamma envStep ls r hA h0 h1 hpi,
    fun envReset envStep fuel n r => ⟨?_, ?_⟩⟩
  · exact runEpisodes_rowsOK A alpha eps gamma envReset envStep fuel n _ _ r
      hA h0 h1 (rowsOK_uniform A hA eps h0 h1)
  · intro s hs a
    obtain ⟨hQ, hpi⟩ := runEpisodes_untouched A alpha eps gamma envReset
      envStep fuel n _ _ r s hs a
    exact ⟨hpi, hQ⟩

/-- Witness for C4 at a concrete input: two actions and epsilon one half. -/
theorem c4_policy_invariant_witness :
    0 < 2 ∧ (0 : ℚ) ≤ 1/2 ∧ (1/2 : ℚ) ≤ 1 ∧
    (rowsOK (fun _ _ => 1 / (2 : ℚ)) 2 (1/2) ∧
     (∀ envStep ls r, rowsOK ls.pi 2 (1/2) →
       rowsOK ((loopBody 2 (1/2) (1/2) 1 envStep ls r).1).pi 2 (1/2)) ∧
     ∀ envReset envStep fuel n r,
       rowsOK (runEpisodes 2 (1/2) (1/2) 1 envReset envStep fuel n
         (fun _ _ => 0) (fun _ _ => 1 / (2 : ℚ)) r).pi 2 (1/2) ∧
       ∀ s, s ∉ (runEpisodes 2 (1/2) (1/2) 1 envReset envStep fuel n
             (fun _ _ => 0) (fun _ _ => 1 / (2 : ℚ)) r).visited →
         ∀ a, (runEpisodes 2 (1/2) (1/2) 1 envReset envStep fuel n
             (fun _ _ => 0) (fun _ _ => 1 / (2 : ℚ)) r).pi s a = 1 / (2 : ℚ) ∧
           (runEpisodes 2 (1/2) (1/2) 1 envReset envStep fuel n
             (fun _ _ => 0) (fun _ _ => 1 / (2 : ℚ)) r).Q s a = 0) :=
  ⟨by decide, by with_unfolding_all decide, by with_unfolding_all decide,
   c4_policy_invariant 2 (1/2) (1/2) 1 (by decide)
     (by with_unfolding_all decide) (by with_unfolding_all decide)⟩

/-- C5: any parameter assignment violating `alpha > 0`, `epsilon ∈ [0,1]`,
`gamma ∈ [0,1]` or `num_episodes > 0` makes `sarsa` report the
configuration error (`none`) for every environment, fuel and random
stream alike: the failure happens before any environment interaction or
table mutation, since the outcome does not depend on them. -/
theorem c5_fail_fast (alpha eps gamma : ℚ) (numEpisodes : ℤ)
    (hbad : ¬(0 < alpha ∧ (0 ≤ eps ∧ eps ≤ 1) ∧ (0 ≤ gamma ∧ gamma ≤ 1)
      ∧ 0 < numEpisodes)) (A envReset : ℕ) (envStep : EnvStep) (fuel : ℕ)
    (r : Rng) :
    sarsa alpha eps gamma numEpisodes A envReset envStep fuel r = none := by
  have hv : ¬ validParams alpha eps gamma numEpisodes = true := by
    simp only [validParams, Bool.and_eq_true, decide_eq_true_eq]
    intro hc
    exact hbad ⟨hc.1.1.1.1, ⟨hc.1.1.2.1, hc.1.1.2.2⟩,
      ⟨hc.1.2.1, hc.1.2.2⟩, hc.2⟩
  simp only [sarsa]
  rw [if_neg hv]

/-- Witness for C5 at a concrete input: `num_episodes = 0` is rejected. -/
theorem c5_fail_fast_witness :
    ¬((0 : ℚ) < 1/10 ∧ ((0 : ℚ) ≤ 1/10 ∧ (1/10 : ℚ) ≤ 1)
        ∧ ((0 : ℚ) ≤ 1/2 ∧ (1/2 : ℚ) ≤ 1) ∧ (0 : ℤ) < 0) ∧
    sarsa (1/10) (1/10) (1/2) 0 2 0 fixtureStep 5 witnessRng = none :=
  ⟨by with_unfolding_all decide,
   c5_fail_fast (1/10) (1/10) (1/2) 0 (by with_unfolding_all decide)
     2 0 fixtureStep 5 witnessRng⟩

/-- C6 counterexample: at `alpha = 1/2` with old value 0 and target 0 the
updated value is 0, which is not strictly between the old value and the
target (both orders of strictness fail because old value and target
coincide), and `alpha ≠ 1`: the claim as stated fails when the old value
already equals the target. -/
theorem c6_counterexample :
    ¬(((0 : ℚ) < qUpdate 0 (1/2) 0 ∧ qUpdate 0 (1/2) 0 < 0) ∨
      ((1/2 : ℚ) = 1 ∧ qUpdate 0 (1/2) 0 = 0)) := by
  with_unfolding_all decide

/-- C6 amended: for `alpha ∈ (0,1]`, whenever the old value differs from
the target the update is a bounded step toward the target: for
`alpha < 1` strictly between old value and target; for `alpha = 1` equal
to the target; and when old value equals the target the value is
unchanged. -/
theorem c6_bounded_step (alpha v t : ℚ) (hpos : 0 < alpha)
    (hle : alpha ≤ 1) :
    (v ≠ t → alpha < 1 →
      ((v < qUpdate v alpha t ∧ qUpdate v alpha t < t) ∨
       (t < qUpdate v alpha t ∧ qUpdate v alpha t < v))) ∧
    (alpha = 1 → qUpdate v alpha t = t) ∧
    (v = t → qUpdate v alpha t = v) := by
  refine ⟨?_, ?_, ?_⟩
  · intro hne hlt
    rcases lt_or_gt_of_ne hne with h | h
    · refine Or.inl ⟨?_, ?_⟩
      · simp only [qUpdate]
        nlinarith [mul_pos hpos (sub_pos.mpr h)]
      · simp only [qUpdate]
        nlinarith [mul_pos (sub_pos.mpr hlt) (sub_pos.mpr h)]
    · refine Or.inr ⟨?_, ?_⟩
      · simp only [qUpdate]
        nlinarith [mul_pos (sub_pos.mpr hlt) (sub_pos.mpr h)]
      · simp only [qUpdate]
        nlinarith [mul_pos hpos (sub_pos.mpr h)]
  · intro h1
    simp only [qUpdate, h1]
    ring
  · intro h
    simp only [qUpdate, h]
    ring

/-- Witness for C6 amended at a concrete input: `alpha = 1/2`, old value
0, target 1. -/
theorem c6_bounded_step_witness :
    (0 : ℚ) < 1/2 ∧ (1/2 : ℚ) ≤ 1 ∧
    (((0 : ℚ) ≠ 1 → (1/2 : ℚ) < 1 →
      (((0 : ℚ) < qUpdate 0 (1/2) 1 ∧ qUpdate 0 (1/2) 1 < 1) ∨
       ((1 : ℚ) < qUpdate 0 (1/2) 1 ∧ qUpdate 0 (1/2) 1 < 0))) ∧
     ((1/2 : ℚ) = 1 → qUpdate 0 (1/2) 1 = 1) ∧
     ((0 : ℚ) = 1 → qUpdate 0 (1/2) 1 = 0)) :=
  ⟨by with_unfolding_all decide, by with_unfolding_all decide,
   c6_bounded_step (1/2) 0 1 (by with_unfolding_all decide)
     (by with_unfolding_all decide)⟩

/-- C7: the per-iteration policy derivation rewrites only the row of the
state whose Q-row was just updated: at every other state both the policy
row and the Q-row are untouched by the iteration. -/
theorem c7_single_row_frame (A : ℕ) (alpha eps gamma : ℚ)
    (envStep : EnvStep) (ls : LoopState) (r : Rng) (s : ℕ)
    (hs : s ≠ ls.state) (a : ℕ) :
    ((loopBody A alpha eps gamma envStep ls r).1).pi s a = ls.pi s a ∧
    ((loopBody A alpha eps gamma envStep ls r).1).Q s a = ls.Q s a :=
  ⟨loopBody_pi_frame A alpha eps gamma envStep ls r s a hs,
   loopBody_Q_frame A alpha eps gamma envStep ls r s a (fun hc => hs hc.1)⟩

/-- Witness for C7 at a concrete input: state 1 differs from the visited
state 0 and its rows are unchanged. -/
theorem c7_single_row_frame_witness :
    (1 : ℕ) ≠ witnessLS.state ∧
    (((loopBody 2 (1/2) 0 1 fixtureStep witnessLS witnessRng).1).pi 1 0
        = witnessLS.pi 1 0 ∧
     ((loopBody 2 (1/2) 0 1 fixtureStep witnessLS witnessRng).1).Q 1 0
        = witnessLS.Q 1 0) :=
  ⟨by decide,
   c7_single_row_frame 2 (1/2) 0 1 fixtureStep witnessLS witnessRng 1
     (by decide) 0⟩

/-- C8: the end-to-end scenario: one episode of the deterministic
fixture with `alpha = 1/2`, `gamma = 1`, `epsilon = 0` and the random
stream that picks the first support element (hence action 0 from the
initial uniform row) updates `Q[0,0]` from 0 to `1/2` and reports exactly
one episode with length 1 and return 1. -/
theorem c8_end_to_end :
    (sarsa (1/2) 0 1 1 2 0 fixtureStep 50 (fun _ => 0)).map
        (fun o => (o.Q 0 0, o.metrics))
      = some ((1/2 : ℚ), [((1 : ℕ), (1 : ℚ))]) := by
  with_unfolding_all decide

/-- C9: validation imposes no upper bound on alpha: every `alpha > 1`
with in-range epsilon and gamma and a positive episode count passes the
asserts, and the run starts (returns a result) for every environment. -/
theorem c9_no_alpha_upper_bound (alpha eps gamma : ℚ) (numEpisodes : ℤ)
    (ha : 1 < alpha) (h0 : 0 ≤ eps) (h1 : eps ≤ 1) (g0 : 0 ≤ gamma)
    (g1 : gamma ≤ 1) (hn : 0 < numEpisodes) :
    validParams alpha eps gamma numEpisodes = true ∧
    ∀ A envReset envStep fuel r,
      (sarsa alpha eps gamma numEpisodes A envReset envStep fuel r).isSome
        = true := by
  have hv : validParams alpha eps gamma numEpisodes = true := by
    simp only [validParams, Bool.and_eq_true, decide_eq_true_eq]
    exact ⟨⟨⟨⟨by linarith, h1⟩, h0, h1⟩, g0, g1⟩, hn⟩
  refine ⟨hv, fun A envReset envStep fuel r => ?_⟩
  simp only [sarsa]
  rw [if_pos hv]
  rfl

/-- Witness for C9 at a concrete input: `alpha = 2` passes validation and
the run starts. -/
theorem c9_no_alpha_upper_bound_witness :
    (1 : ℚ) < 2 ∧ (0 : ℚ) ≤ 0 ∧ (0 : ℚ) ≤ 1 ∧ (0 : ℚ) ≤ 0 ∧ (0 : ℚ) ≤ 1
      ∧ (0 : ℤ) < 1 ∧
    (validParams 2 0 0 1 = true ∧
     ∀ A envReset envStep fuel r,
       (sarsa 2 0 0 1 A envReset envStep fuel r).isSome = true) :=
  ⟨by decide, by decide, by decide, by decide, by decide, by decide,
   c9_no_alpha_upper_bound 2 0 0 1 (by decide) (by decide) (by decide)
     (by decide) (by decide) (by decide)⟩

/-- C10: every episode executes the loop body at least once: the reported
episode length equals the number of executed iterations (each performing
one environment step and one Q update), that count is at least 1, and
every episode length reported to the metrics sink is at least 1 — even
when the environment signals termination on the very first step. -/
theorem c10_loop_runs_once (A : ℕ) (alpha eps gamma : ℚ) (envReset : ℕ)
    (envStep : EnvStep) (fuel : ℕ) (Q pi : ℕ → ℕ → ℚ) (r : Rng) :
    (runEpisode A alpha eps gamma envReset envStep fuel Q pi r).1.episodeLength
      = (runEpisode A alpha eps gamma envReset envStep fuel Q pi r).2.2.length ∧
    1 ≤ (runEpisode A alpha eps gamma envReset envStep fuel Q pi r).1.episodeLength ∧
    ∀ n m,
      m ∈ (runEpisodes A alpha eps gamma envReset envStep fuel n Q pi r).metrics
      → 1 ≤ m.1 := by
  have hlen := runLoop_length A alpha eps gamma envStep fuel
    { Q := Q, pi := pi, state := envReset,
      action := choiceP (pi envReset) A (rngHead r),
      episodeLength := 0, episodeReturn := 0 } (rngTail r)
  have hne := runLoop_visited_ne_nil A alpha eps gamma envStep fuel
    { Q := Q, pi := pi, state := envReset,
      action := choiceP (pi envReset) A (rngHead r),
      episodeLength := 0, episodeReturn := 0 } (rngTail r)
  have hpos := List.length_pos.mpr hne
  dsimp only at hlen
  refine ⟨?_, ?_, fun n m hm => runEpisodes_metrics_pos A alpha eps gamma
    envReset envStep fuel n Q pi r m hm⟩
  · rw [runEpisode_def, hlen]
    omega
  · rw [runEpisode_def, hlen]
    omega

/-- Witness for C10 at a concrete input: the fixture terminates on the
first step, yet the reported pair `(1, 1)` has length at least 1. -/
theorem c10_loop_runs_once_witness :
    ((1 : ℕ), (1 : ℚ)) ∈ (runEpisodes 2 (1/2) 0 1 0 fixtureStep 5 1
        witnessLS.Q witnessLS.pi witnessRng).metrics ∧
    1 ≤ ((1 : ℕ), (1 : ℚ)).1 :=
  ⟨by with_unfolding_all decide,
   (c10_loop_runs_once 2 (1/2) 0 1 0 fixtureStep 5 witnessLS.Q witnessLS.pi
     witnessRng).2.2 1 ((1 : ℕ), (1 : ℚ)) (by with_unfolding_all decide)⟩

end RLSuite
